import Mathlib

/-!
Shallow embedding of `python/puppetry/examples/head_nod.py`: the simple
harmonic oscillator class `Sho`, the module-level pose-generator constants,
the per-frame `computeData`, and the sleep computation of
`puppetry_coroutine`.  Python floats are modelled as real numbers; a Python
`ZeroDivisionError` is modelled by `Option`-valued variants of the operations
that divide.
-/

open Real

/-- Python `int(x)` on a real value: truncation toward zero. -/
noncomputable def truncZ (x : ℝ) : ℤ :=
  if 0 ≤ x then ⌊x⌋ else ⌈x⌉

/-- The wrap applied in `Sho.__init__` and `Sho.advance`:
`if t > period or t < -period: t -= int(t / period) * period`. -/
noncomputable def wrapT (t p : ℝ) : ℝ :=
  if t > p ∨ t < -p then t - truncZ (t / p) * p else t

/-- State of the `Sho` class: `wave_speed`, `period` and the phase-time
accumulator `t`. -/
structure Sho where
  wave_speed : ℝ
  period : ℝ
  t : ℝ

/-- `Sho.__init__(frequency, phase)` (total model; the Python
`ZeroDivisionError` on zero frequency is captured by `Sho.mk?`):
`frequency = abs(frequency)`, `wave_speed = 2π·frequency`,
`period = 1/frequency`, `t = phase/wave_speed` then wrapped. -/
noncomputable def Sho.init (frequency phase : ℝ) : Sho :=
  let f := |frequency|
  let ws := 2 * Real.pi * f
  let p := 1 / f
  ⟨ws, p, wrapT (phase / ws) p⟩

/-- `Sho.advance(dt)`: `t += dt`, then wrap. -/
noncomputable def Sho.advance (s : Sho) (dt : ℝ) : Sho :=
  ⟨s.wave_speed, s.period, wrapT (s.t + dt) s.period⟩

/-- `Sho.sin()`. -/
noncomputable def Sho.sin (s : Sho) : ℝ := Real.sin (s.t * s.wave_speed)

/-- `Sho.cos()`. -/
noncomputable def Sho.cos (s : Sho) : ℝ := Real.cos (s.t * s.wave_speed)

/-- `Sho.theta()`. -/
noncomputable def Sho.theta (s : Sho) : ℝ := s.t * s.wave_speed

/-- Fallible model of `Sho.__init__`: Python raises `ZeroDivisionError`
computing `period = 1.0 / frequency` exactly when `abs(frequency) == 0`. -/
noncomputable def Sho.mk? (frequency phase : ℝ) : Option Sho :=
  if frequency = 0 then none else some (Sho.init frequency phase)

/-- Fallible model of `Sho.advance`: the only division is `int(t / period)`
inside the wrap, which Python evaluates only when the wrap condition fires;
it raises exactly when `period == 0` there. -/
noncomputable def Sho.advance? (s : Sho) (dt : ℝ) : Option Sho :=
  if (s.t + dt > s.period ∨ s.t + dt < -s.period) ∧ s.period = 0 then none
  else some (s.advance dt)

/-- States of a `Sho` reachable from `Sho(frequency, phase)` by any sequence
of `advance` calls. -/
inductive Reached (frequency phase : ℝ) : Sho → Prop
  | base : Reached frequency phase (Sho.init frequency phase)
  | step (s : Sho) (dt : ℝ) :
      Reached frequency phase s → Reached frequency phase (s.advance dt)

/-- Folding a list of time increments through `advance`. -/
noncomputable def Sho.advanceAll (s : Sho) (l : List ℝ) : Sho :=
  l.foldl Sho.advance s

lemma wrapT_eq_self {t p : ℝ} (h : ¬(t > p ∨ t < -p)) : wrapT t p = t :=
  if_neg h

lemma wrapT_sub_int (t p : ℝ) : ∃ k : ℤ, wrapT t p = t - k * p := by
  unfold wrapT
  by_cases h : t > p ∨ t < -p
  · exact ⟨truncZ (t / p), by rw [if_pos h]⟩
  · exact ⟨0, by rw [if_neg h]; push_cast; ring⟩

lemma wrapT_strict {t p : ℝ} (hp : 0 < p) (h : t > p ∨ t < -p) :
    -p < wrapT t p ∧ wrapT t p < p := by
  have hp0 : p ≠ 0 := ne_of_gt hp
  rw [wrapT, if_pos h]
  rcases h with h1 | h2
  · -- t > p > 0, so t/p > 1 and the truncation is a floor
    have hdiv : (1 : ℝ) < t / p := (one_lt_div hp).mpr h1
    have hnn : (0 : ℝ) ≤ t / p := le_of_lt (lt_trans one_pos hdiv)
    have htr : truncZ (t / p) = ⌊t / p⌋ := if_pos hnn
    have hkey : t - truncZ (t / p) * p = p * Int.fract (t / p) := by
      rw [htr, Int.fract]
      field_simp
      ring
    rw [hkey]
    constructor
    · have : (0 : ℝ) ≤ p * Int.fract (t / p) :=
        mul_nonneg (le_of_lt hp) (Int.fract_nonneg _)
      linarith
    · have : p * Int.fract (t / p) < p * 1 :=
        (mul_lt_mul_left hp).mpr (Int.fract_lt_one _)
      linarith
  · -- t < -p < 0, so t/p < -1 and the truncation is a ceiling
    have hdiv : t / p < -1 := by
      rw [div_lt_iff₀ hp]
      linarith
    have hneg : ¬(0 : ℝ) ≤ t / p := by linarith
    have htr : truncZ (t / p) = ⌈t / p⌉ := if_neg hneg
    have hceil_lt : (⌈t / p⌉ : ℝ) < t / p + 1 := Int.ceil_lt_add_one _
    have hceil_ge : t / p ≤ (⌈t / p⌉ : ℝ) := Int.le_ceil _
    have hteq : t = (t / p) * p := by field_simp
    constructor
    · rw [htr]
      nlinarith
    · rw [htr]
      nlinarith

lemma wrapT_bounds {p : ℝ} (hp : 0 < p) (t : ℝ) :
    -p ≤ wrapT t p ∧ wrapT t p ≤ p := by
  by_cases h : t > p ∨ t < -p
  · have := wrapT_strict hp h
    exact ⟨le_of_lt this.1, le_of_lt this.2⟩
  · push_neg at h
    rw [wrapT_eq_self (by push_neg; exact h)]
    exact ⟨h.2, h.1⟩

lemma Sho.advance_wave_speed (s : Sho) (dt : ℝ) :
    (s.advance dt).wave_speed = s.wave_speed := rfl

lemma Sho.advance_period (s : Sho) (dt : ℝ) :
    (s.advance dt).period = s.period := rfl

lemma Sho.init_wave_speed (f ph : ℝ) :
    (Sho.init f ph).wave_speed = 2 * Real.pi * |f| := rfl

lemma Sho.init_period (f ph : ℝ) : (Sho.init f ph).period = 1 / |f| := rfl

lemma Reached.wave_speed_eq {f ph : ℝ} {s : Sho} (h : Reached f ph s) :
    s.wave_speed = 2 * Real.pi * |f| := by
  induction h with
  | base => rfl
  | step s dt _ ih => rw [Sho.advance_wave_speed, ih]

lemma Reached.period_eq {f ph : ℝ} {s : Sho} (h : Reached f ph s) :
    s.period = 1 / |f| := by
  induction h with
  | base => rfl
  | step s dt _ ih => rw [Sho.advance_period, ih]

lemma Reached.period_pos {f ph : ℝ} {s : Sho} (hf : f ≠ 0)
    (h : Reached f ph s) : 0 < s.period := by
  rw [h.period_eq]
  exact one_div_pos.mpr (abs_pos.mpr hf)

lemma Reached.period_mul_wave_speed {f ph : ℝ} {s : Sho} (hf : f ≠ 0)
    (h : Reached f ph s) : s.period * s.wave_speed = 2 * Real.pi := by
  rw [h.period_eq, h.wave_speed_eq]
  have : |f| ≠ 0 := fun hc => hf (abs_eq_zero.mp hc)
  field_simp

lemma Reached.t_bound {f ph : ℝ} {s : Sho} (hf : f ≠ 0)
    (h : Reached f ph s) : -s.period ≤ s.t ∧ s.t ≤ s.period := by
  induction h with
  | base =>
    have hp : 0 < (Sho.init f ph).period :=
      Reached.period_pos hf (Reached.base)
    exact wrapT_bounds hp _
  | step s dt hprev ih =>
    have hp : 0 < s.period := Reached.period_pos hf hprev
    have := wrapT_bounds hp (s.t + dt)
    simpa [Sho.advance] using this

lemma Sho.advanceAll_nil (s : Sho) : s.advanceAll [] = s := rfl

lemma Sho.advanceAll_cons (s : Sho) (dt : ℝ) (l : List ℝ) :
    s.advanceAll (dt :: l) = (s.advance dt).advanceAll l := rfl

lemma Sho.advanceAll_wave_speed (l : List ℝ) :
    ∀ s : Sho, (s.advanceAll l).wave_speed = s.wave_speed := by
  induction l with
  | nil => intro s; rfl
  | cons dt l ih =>
    intro s
    rw [Sho.advanceAll_cons, ih, Sho.advance_wave_speed]

lemma Sho.advanceAll_period (l : List ℝ) :
    ∀ s : Sho, (s.advanceAll l).period = s.period := by
  induction l with
  | nil => intro s; rfl
  | cons dt l ih =>
    intro s
    rw [Sho.advanceAll_cons, ih, Sho.advance_period]

lemma Sho.advanceAll_t (l : List ℝ) :
    ∀ s : Sho, ∃ k : ℤ, (s.advanceAll l).t = s.t + l.sum - k * s.period := by
  induction l with
  | nil =>
    intro s
    exact ⟨0, by simp [Sho.advanceAll]⟩
  | cons dt l ih =>
    intro s
    obtain ⟨k, hk⟩ := ih (s.advance dt)
    obtain ⟨k₂, hk₂⟩ := wrapT_sub_int (s.t + dt) s.period
    refine ⟨k + k₂, ?_⟩
    rw [Sho.advanceAll_cons, hk, Sho.advance_period]
    have ht : (s.advance dt).t = s.t + dt - k₂ * s.period := hk₂
    rw [ht, List.sum_cons]
    push_cast
    ring

/-- `pulse_period = 16.0`. -/
noncomputable def pulse_period : ℝ := 16

/-- `oscillation_period = 2.0`. -/
noncomputable def oscillation_period : ℝ := 2

/-- `pulse_speed = 2.0 * math.pi / pulse_period`. -/
noncomputable def pulse_speed : ℝ := 2 * Real.pi / pulse_period

/-- `oscillation_speed = 2.0 * math.pi / oscillation_period`. -/
noncomputable def oscillation_speed : ℝ := 2 * Real.pi / oscillation_period

/-- `pulsor = Sho(frequency = 1.0 / pulse_period, phase=0)`. -/
noncomputable def pulsor : Sho := Sho.init (1 / pulse_period) 0

/-- `rotator = Sho(frequency = 1.0 / oscillation_period, phase=0)`. -/
noncomputable def rotator : Sho := Sho.init (1 / oscillation_period) 0

/-- `amplitude = math.pi / 6.0`. -/
noncomputable def amplitude : ℝ := Real.pi / 6

/-- `update_period = 0.1`. -/
noncomputable def update_period : ℝ := 0.1

/-- The script's mutable module state: the two oscillators touched by
`computeData`. -/
structure HeadNodState where
  pulsor : Sho
  rotator : Sho

/-- The module state right after start-up. -/
noncomputable def initState : HeadNodState := ⟨pulsor, rotator⟩

/-- `computeData(time_step)`, with the module-global mutation made explicit
(the new oscillator pair is returned first) and the external
`puppetry.packedQuaternionFromEulerAngles` collaborator abstracted as an
arbitrary pure function `pack`.  The returned association list is the Python
dict `{'mHead': {'local_rot': packed_rot}}`. -/
noncomputable def computeData {P : Type} (pack : ℝ → ℝ → ℝ → P)
    (st : HeadNodState) (time_step : ℝ) :
    HeadNodState × List (String × List (String × P)) :=
  let pulsor := st.pulsor.advance time_step
  let rotator := st.rotator.advance time_step
  let ps := pulsor.sin
  let tilt : ℝ := 0
  let nodturn : ℝ × ℝ :=
    if ps > 0 then ((amplitude * ps) * rotator.sin, 0)
    else (0, (amplitude * ps) * rotator.sin)
  let packed_rot := pack tilt nodturn.1 nodturn.2
  (⟨pulsor, rotator⟩, [("mHead", [("local_rot", packed_rot)])])

/-- Instantiation of the abstract encoder that just records the three Euler
angles, used to observe which angles `computeData` feeds the encoder. -/
noncomputable def packTriple : ℝ → ℝ → ℝ → ℝ × ℝ × ℝ :=
  fun tilt nod turn => (tilt, nod, turn)

/-- The `(tilt, nod, turn)` triple a call `computeData(dt)` hands to the
rotation encoder, read off the emitted message. -/
noncomputable def emittedEuler (st : HeadNodState) (dt : ℝ) : ℝ × ℝ × ℝ :=
  (((computeData packTriple st dt).2.headI).2.headI).2

/-- One frame of the `puppetry_coroutine` loop body restricted to the state
it owns: the pose-generator state after a `computeData(0.0)` call. -/
noncomputable def stepOnce (st : HeadNodState) : HeadNodState :=
  (computeData packTriple st 0).1

lemma emittedEuler_eq (st : HeadNodState) (dt : ℝ) :
    emittedEuler st dt =
      (0,
       if (st.pulsor.advance dt).sin > 0 then
         amplitude * (st.pulsor.advance dt).sin * (st.rotator.advance dt).sin
       else 0,
       if (st.pulsor.advance dt).sin > 0 then 0
       else
         amplitude * (st.pulsor.advance dt).sin *
           (st.rotator.advance dt).sin) := by
  unfold emittedEuler computeData packTriple
  by_cases h : (st.pulsor.advance dt).sin > 0
  · simp only [if_pos h, List.headI]
  · simp only [if_neg h, List.headI]

lemma computeData_eq {P : Type} (pack : ℝ → ℝ → ℝ → P)
    (st : HeadNodState) (dt : ℝ) :
    computeData pack st dt =
      (⟨st.pulsor.advance dt, st.rotator.advance dt⟩,
       [("mHead",
         [("local_rot",
           pack (emittedEuler st dt).1 (emittedEuler st dt).2.1
             (emittedEuler st dt).2.2)])]) := by
  rw [emittedEuler_eq]
  unfold computeData
  by_cases h : (st.pulsor.advance dt).sin > 0
  · simp only [if_pos h]
  · simp only [if_neg h]

lemma Sho.init_eval (f ph : ℝ) :
    Sho.init f ph =
      ⟨2 * Real.pi * |f|, 1 / |f|,
       wrapT (ph / (2 * Real.pi * |f|)) (1 / |f|)⟩ := rfl

lemma Sho.advance_of_not {s : Sho} {dt : ℝ}
    (h : ¬(s.t + dt > s.period ∨ s.t + dt < -s.period)) :
    s.advance dt = ⟨s.wave_speed, s.period, s.t + dt⟩ := by
  unfold Sho.advance
  rw [wrapT_eq_self h]

lemma init116_eval : Sho.init (1 / 16) 0 = ⟨Real.pi / 8, 16, 0⟩ := by
  rw [Sho.init_eval]
  have habs : |(1 : ℝ) / 16| = 1 / 16 := by norm_num
  rw [habs, zero_div]
  have hw : wrapT 0 (1 / ((1 : ℝ) / 16)) = 0 :=
    wrapT_eq_self (by norm_num)
  rw [hw]
  simp only [Sho.mk.injEq]
  norm_num
  ring

lemma init12_eval : Sho.init (1 / 2) 0 = ⟨Real.pi, 2, 0⟩ := by
  rw [Sho.init_eval]
  have habs : |(1 : ℝ) / 2| = 1 / 2 := by norm_num
  rw [habs, zero_div]
  have hw : wrapT 0 (1 / ((1 : ℝ) / 2)) = 0 :=
    wrapT_eq_self (by norm_num)
  rw [hw]
  simp only [Sho.mk.injEq]
  norm_num
  ring

lemma pulsor_eval : pulsor = ⟨Real.pi / 8, 16, 0⟩ := by
  have h : pulsor = Sho.init (1 / 16) 0 := rfl
  rw [h, init116_eval]

lemma rotator_eval : rotator = ⟨Real.pi, 2, 0⟩ := by
  have h : rotator = Sho.init (1 / 2) 0 := rfl
  rw [h, init12_eval]

lemma pulsor_advance_zero : pulsor.advance 0 = pulsor := by
  rw [pulsor_eval, Sho.advance_of_not (by norm_num)]
  norm_num

lemma rotator_advance_zero : rotator.advance 0 = rotator := by
  rw [rotator_eval, Sho.advance_of_not (by norm_num)]
  norm_num

lemma emittedEuler_init_zero : emittedEuler initState 0 = (0, 0, 0) := by
  have hpz : initState.pulsor.advance 0 = pulsor := pulsor_advance_zero
  rw [emittedEuler_eq, hpz]
  have hs : pulsor.sin = 0 := by
    rw [pulsor_eval]
    simp [Sho.sin]
  rw [hs]
  norm_num

lemma computeData_init_zero :
    computeData packTriple initState 0 =
      (initState, [("mHead", [("local_rot", ((0 : ℝ), (0 : ℝ), (0 : ℝ)))])]) := by
  rw [computeData_eq, emittedEuler_init_zero]
  have h1 : initState.pulsor.advance 0 = initState.pulsor := pulsor_advance_zero
  have h2 : initState.rotator.advance 0 = initState.rotator :=
    rotator_advance_zero
  rw [h1, h2]
  rfl

lemma stepOnce_init : stepOnce initState = initState := by
  unfold stepOnce
  rw [computeData_init_zero]

/-- The local variables of the `puppetry_coroutine` loop: the previous clock
reading `t0` and the elapsed time `delta_time` of the last iteration. -/
structure LoopVars where
  t0 : ℝ
  delta_time : ℝ

/-- The duration the loop passes to `eventlet.sleep`:
`max(0.0, 2 * update_period - delta_time)`. -/
noncomputable def sleepArg (delta_time : ℝ) : ℝ :=
  max 0 (2 * update_period - delta_time)

/-- One iteration of the `puppetry_coroutine` loop body, with the monotonic
clock reading `t1` supplied as an input: returns the duration passed to
`eventlet.sleep` together with the updated loop variables. -/
noncomputable def loopIter (v : LoopVars) (t1 : ℝ) : ℝ × LoopVars :=
  (sleepArg v.delta_time, ⟨t1, t1 - v.t0⟩)

/-- Modelled from the spec: the sleep duration the specification describes, a
fixed update period of `0.1` reduced by the elapsed time and floored at zero
(`max(0, 0.1 - delta_time)`); written for comparison with `sleepArg`. -/
noncomputable def specSleepArg (delta_time : ℝ) : ℝ :=
  max 0 (update_period - delta_time)

lemma Sho.sin_eq_theta (s : Sho) : s.sin = Real.sin s.theta := rfl

lemma Sho.cos_eq_theta (s : Sho) : s.cos = Real.cos s.theta := rfl

lemma advanceAll_sum_congr {f ph : ℝ} {s : Sho} (hf : f ≠ 0)
    (hs : Reached f ph s) (l₁ l₂ : List ℝ) (hsum : l₁.sum = l₂.sum) :
    (s.advanceAll l₁).sin = (s.advanceAll l₂).sin ∧
    (s.advanceAll l₁).cos = (s.advanceAll l₂).cos ∧
    ∃ k : ℤ, (s.advanceAll l₁).theta - (s.advanceAll l₂).theta =
        k * (2 * Real.pi) := by
  obtain ⟨k₁, h₁⟩ := Sho.advanceAll_t l₁ s
  obtain ⟨k₂, h₂⟩ := Sho.advanceAll_t l₂ s
  have hws₁ : (s.advanceAll l₁).wave_speed = s.wave_speed :=
    Sho.advanceAll_wave_speed l₁ s
  have hws₂ : (s.advanceAll l₂).wave_speed = s.wave_speed :=
    Sho.advanceAll_wave_speed l₂ s
  have hpw := hs.period_mul_wave_speed hf
  have htheta : (s.advanceAll l₁).theta - (s.advanceAll l₂).theta =
      ((k₂ - k₁ : ℤ) : ℝ) * (2 * Real.pi) := by
    unfold Sho.theta
    rw [hws₁, hws₂, h₁, h₂, hsum]
    push_cast
    linear_combination ((k₂ : ℝ) - (k₁ : ℝ)) * hpw
  have hrot : (s.advanceAll l₁).theta =
      (s.advanceAll l₂).theta + ((k₂ - k₁ : ℤ) : ℝ) * (2 * Real.pi) := by
    linarith [htheta]
  refine ⟨?_, ?_, ⟨k₂ - k₁, htheta⟩⟩
  · rw [Sho.sin_eq_theta, Sho.sin_eq_theta, hrot,
      Real.sin_add_int_mul_two_pi]
  · rw [Sho.cos_eq_theta, Sho.cos_eq_theta, hrot,
      Real.cos_add_int_mul_two_pi]

/-- C1: for every frame, `computeData`'s emitted Euler angles follow the mode
switch exactly: with `ps` the pulsor's sine after both oscillators advanced
by `dt`, the nod angle is `amplitude * ps * rotator.sin()` when `ps > 0` and
`0` otherwise, the turn angle is `0` when `ps > 0` and
`amplitude * ps * rotator.sin()` otherwise (so `ps = 0` takes the shake
branch), and the tilt angle is `0` in every frame. -/
theorem C1_mode_switch (st : HeadNodState) (dt : ℝ) :
    emittedEuler st dt =
      (0,
       if (st.pulsor.advance dt).sin > 0 then
         amplitude * (st.pulsor.advance dt).sin * (st.rotator.advance dt).sin
       else 0,
       if (st.pulsor.advance dt).sin > 0 then 0
       else
         amplitude * (st.pulsor.advance dt).sin *
           (st.rotator.advance dt).sin) :=
  emittedEuler_eq st dt

/-- C2 counterexample: at `dt = 0` from the initial state, the single joint
key of the emitted pose update is `"mHead"`, not `"Head"` as the claim
states. -/
theorem C2_joint_key_counterexample :
    (computeData packTriple initState 0).2.map Prod.fst ≠ ["Head"] := by
  have h : (computeData packTriple initState 0).2.map Prod.fst = ["mHead"] := by
    rw [computeData_init_zero]
    rfl
  rw [h]
  decide

/-- C2 (amended): for every `dt` and every encoder `pack`, the pose update
returned by `computeData(dt)` is a mapping whose single joint key is the
string `"mHead"`, mapped to a mapping whose single key is `"local_rot"`,
mapped to the packed rotation encoded from the emitted
`(tilt, nod, turn)`. -/
theorem C2_pose_update_shape {P : Type} (pack : ℝ → ℝ → ℝ → P)
    (st : HeadNodState) (dt : ℝ) :
    (computeData pack st dt).2 =
      [("mHead",
        [("local_rot",
          pack (emittedEuler st dt).1 (emittedEuler st dt).2.1
            (emittedEuler st dt).2.2)])] := by
  rw [computeData_eq]

/-- C3 counterexample: with `delta_time = 0` the code passes
`max(0, 2·0.1 − 0) = 0.2` to the sleep, while the claimed formula
`max(0, 0.1 − delta_time)` gives `0.1`. -/
theorem C3_sleep_counterexample :
    sleepArg 0 = 1 / 5 ∧ specSleepArg 0 = 1 / 10 ∧
    sleepArg 0 ≠ specSleepArg 0 := by
  have h1 : sleepArg 0 = 1 / 5 := by
    unfold sleepArg update_period
    rw [max_eq_right (by norm_num)]
    norm_num
  have h2 : specSleepArg 0 = 1 / 10 := by
    unfold specSleepArg update_period
    rw [max_eq_right (by norm_num)]
    norm_num
  refine ⟨h1, h2, ?_⟩
  rw [h1, h2]
  norm_num

/-- C3 (amended): in every iteration of the frame loop, the duration passed
to the voluntary sleep equals twice the fixed update period of `0.1`
time-units reduced by the actual elapsed time since the previous iteration,
floored at zero, i.e. `max(0, 2·0.1 − delta_time)`; the elapsed time
recorded for the next iteration is the difference of the two clock
readings. -/
theorem C3_sleep_duration (v : LoopVars) (t1 : ℝ) :
    (loopIter v t1).1 = max 0 (2 * (1 / 10) - v.delta_time) ∧
    (loopIter v t1).2.delta_time = t1 - v.t0 := by
  constructor
  · show sleepArg v.delta_time = _
    unfold sleepArg update_period
    norm_num
  · rfl

/-- C4: from any reachable state of an oscillator built with nonzero
frequency, `advance(dt1)` followed by `advance(dt2)` yields the same
`sin()`/`cos()` and the same `theta()` modulo `2π` as a single
`advance(dt1 + dt2)`, and more generally any two `advance` sequences with
equal total elapsed time agree on `sin()`, `cos()` and `theta()` mod `2π`. -/
theorem C4_advance_additive (f ph : ℝ) (s : Sho) (hf : f ≠ 0)
    (hs : Reached f ph s) :
    (∀ dt₁ dt₂ : ℝ,
      ((s.advance dt₁).advance dt₂).sin = (s.advance (dt₁ + dt₂)).sin ∧
      ((s.advance dt₁).advance dt₂).cos = (s.advance (dt₁ + dt₂)).cos ∧
      ∃ k : ℤ, ((s.advance dt₁).advance dt₂).theta -
          (s.advance (dt₁ + dt₂)).theta = k * (2 * Real.pi)) ∧
    (∀ l₁ l₂ : List ℝ, l₁.sum = l₂.sum →
      (s.advanceAll l₁).sin = (s.advanceAll l₂).sin ∧
      (s.advanceAll l₁).cos = (s.advanceAll l₂).cos ∧
      ∃ k : ℤ, (s.advanceAll l₁).theta - (s.advanceAll l₂).theta =
          k * (2 * Real.pi)) := by
  constructor
  · intro dt₁ dt₂
    exact advanceAll_sum_congr hf hs [dt₁, dt₂] [dt₁ + dt₂] (by simp)
  · intro l₁ l₂ hsum
    exact advanceAll_sum_congr hf hs l₁ l₂ hsum

theorem C4_witness :
    (1 : ℝ) / 16 ≠ 0 ∧
    (((Sho.init (1 / 16) 0).advance 1).advance 2).sin =
      ((Sho.init (1 / 16) 0).advance (1 + 2)).sin :=
  ⟨by norm_num,
   ((C4_advance_additive (1 / 16) 0 (Sho.init (1 / 16) 0) (by norm_num)
       Reached.base).1 1 2).1⟩

/-- C5: for every oscillator built with nonzero frequency, in every state
reachable by `advance` calls the accumulator satisfies
`-period ≤ t ≤ period`; moreover the wrap, whenever its strict condition
fires, lands strictly inside `(-period, period)`, and `t` exactly equal to
`period` or `-period` is left unwrapped. -/
theorem C5_phase_accumulator_bound (f ph : ℝ) (hf : f ≠ 0) (s : Sho)
    (hs : Reached f ph s) :
    (-s.period ≤ s.t ∧ s.t ≤ s.period) ∧
    (∀ u : ℝ, (u > s.period ∨ u < -s.period) →
      -s.period < wrapT u s.period ∧ wrapT u s.period < s.period) ∧
    wrapT s.period s.period = s.period ∧
    wrapT (-s.period) s.period = -s.period := by
  have hp : 0 < s.period := hs.period_pos hf
  refine ⟨hs.t_bound hf, fun u hu => wrapT_strict hp hu, ?_, ?_⟩
  · exact wrapT_eq_self (by push_neg; constructor <;> linarith)
  · exact wrapT_eq_self (by push_neg; constructor <;> linarith)

theorem C5_witness :
    (1 : ℝ) / 16 ≠ 0 ∧
    (-(Sho.init (1 / 16) 0).period ≤ (Sho.init (1 / 16) 0).t ∧
      (Sho.init (1 / 16) 0).t ≤ (Sho.init (1 / 16) 0).period) :=
  ⟨by norm_num,
   (C5_phase_accumulator_bound (1 / 16) 0 (by norm_num) _ Reached.base).1⟩

/-- C7: oscillator construction fails with the division-by-zero error
exactly when the frequency is zero; for every nonzero frequency (of either
sign) construction succeeds and returns the deterministic state `Sho.init`,
and from any reachable state every `advance(dt)` with arbitrary real `dt`
succeeds without error and returns the deterministic state `Sho.advance`. -/
theorem C7_zero_frequency_error :
    (∀ f ph : ℝ, Sho.mk? f ph = none ↔ f = 0) ∧
    (∀ f ph : ℝ, f ≠ 0 → Sho.mk? f ph = some (Sho.init f ph)) ∧
    (∀ (f ph : ℝ) (s : Sho), f ≠ 0 → Reached f ph s →
      ∀ dt : ℝ, s.advance? dt = some (s.advance dt)) := by
  refine ⟨?_, ?_, ?_⟩
  · intro f ph
    unfold Sho.mk?
    by_cases h : f = 0
    · simp [h]
    · simp [h]
  · intro f ph h
    unfold Sho.mk?
    rw [if_neg h]
  · intro f ph s hf hs dt
    unfold Sho.advance?
    have hp : 0 < s.period := hs.period_pos hf
    rw [if_neg]
    exact fun hc => (ne_of_gt hp) hc.2

theorem C7_witness :
    Sho.mk? (1 / 16) 0 = some (Sho.init (1 / 16) 0) ∧
    Sho.mk? 0 0 = none :=
  ⟨C7_zero_frequency_error.2.1 (1 / 16) 0 (by norm_num),
   (C7_zero_frequency_error.1 0 0).mpr rfl⟩

lemma amplitude_nonneg : 0 ≤ amplitude := by
  unfold amplitude
  positivity

lemma abs_amp_sin_sin_le (a b : Sho) :
    |amplitude * a.sin * b.sin| ≤ amplitude := by
  have h1 : |a.sin| ≤ 1 := by
    rw [Sho.sin]
    exact abs_le.mpr ⟨Real.neg_one_le_sin _, Real.sin_le_one _⟩
  have h2 : |b.sin| ≤ 1 := by
    rw [Sho.sin]
    exact abs_le.mpr ⟨Real.neg_one_le_sin _, Real.sin_le_one _⟩
  rw [abs_mul, abs_mul, abs_of_nonneg amplitude_nonneg]
  calc amplitude * |a.sin| * |b.sin| ≤ amplitude * 1 * |b.sin| :=
        mul_le_mul_of_nonneg_right
          (mul_le_mul_of_nonneg_left h1 amplitude_nonneg) (abs_nonneg _)
    _ = amplitude * |b.sin| := by ring
    _ ≤ amplitude * 1 := mul_le_mul_of_nonneg_left h2 amplitude_nonneg
    _ = amplitude := mul_one _

/-- C6: for every frame, with any state and any real `dt`, the emitted nod
and turn angles are bounded in absolute value by `amplitude`, which is the
fixed scalar `π/6`. -/
theorem C6_amplitude_bound (st : HeadNodState) (dt : ℝ) :
    |(emittedEuler st dt).2.1| ≤ amplitude ∧
    |(emittedEuler st dt).2.2| ≤ amplitude ∧ amplitude = Real.pi / 6 := by
  rw [emittedEuler_eq]
  refine ⟨?_, ?_, rfl⟩
  · show |if (st.pulsor.advance dt).sin > 0 then
        amplitude * (st.pulsor.advance dt).sin * (st.rotator.advance dt).sin
      else 0| ≤ amplitude
    split_ifs with h
    · exact abs_amp_sin_sin_le _ _
    · rw [abs_zero]
      exact amplitude_nonneg
  · show |if (st.pulsor.advance dt).sin > 0 then 0
      else
        amplitude * (st.pulsor.advance dt).sin *
          (st.rotator.advance dt).sin| ≤ amplitude
    split_ifs with h
    · rw [abs_zero]
      exact amplitude_nonneg
    · exact abs_amp_sin_sin_le _ _

/-- C8: from the initial pose-generator state (pulsor period 16, rotator
period 2, both phase 0), calls of `computeData(0.0)` repeated any number of
times leave both oscillators unchanged, and the output equals the value at
`t = 0`: tilt, nod and turn all `0`. -/
theorem C8_zero_dt_fixed_point :
    (∀ n : ℕ, stepOnce^[n] initState = initState) ∧
    emittedEuler initState 0 = (0, 0, 0) ∧
    computeData packTriple initState 0 =
      (initState,
       [("mHead", [("local_rot", ((0 : ℝ), (0 : ℝ), (0 : ℝ)))])]) ∧
    initState.pulsor.period = 16 ∧ initState.rotator.period = 2 ∧
    initState.pulsor.t = 0 ∧ initState.rotator.t = 0 := by
  refine ⟨fun n => Function.iterate_fixed stepOnce_init n,
    emittedEuler_init_zero, computeData_init_zero, ?_, ?_, ?_, ?_⟩
  · rw [show initState.pulsor = pulsor from rfl, pulsor_eval]
  · rw [show initState.rotator = rotator from rfl, rotator_eval]
  · rw [show initState.pulsor = pulsor from rfl, pulsor_eval]
  · rw [show initState.rotator = rotator from rfl, rotator_eval]

/-- C9: the oscillator built with frequency `1/16` and phase `0`, after a
single `advance(4.0)` (one quarter period), returns `sin() = 1` and
`cos() = 0` exactly in the real-number model. -/
theorem C9_quarter_period :
    ((Sho.init (1 / 16) 0).advance 4).sin = 1 ∧
    ((Sho.init (1 / 16) 0).advance 4).cos = 0 := by
  have hadv : (Sho.init (1 / 16) 0).advance 4 = ⟨Real.pi / 8, 16, 4⟩ := by
    rw [init116_eval, Sho.advance_of_not (by norm_num)]
    norm_num
  rw [hadv]
  have h : (4 : ℝ) * (Real.pi / 8) = Real.pi / 2 := by ring
  constructor
  · show Real.sin (4 * (Real.pi / 8)) = 1
    rw [h, Real.sin_pi_div_two]
  · show Real.cos (4 * (Real.pi / 8)) = 0
    rw [h, Real.cos_pi_div_two]

/-- C10: for every oscillator built with nonzero frequency, in every
reachable state the raw angle `theta() = t * wave_speed` satisfies
`|theta()| ≤ 2π`; and `theta()` is not reduced into `[0, 2π)`: some
reachable state has a negative `theta()`. -/
theorem C10_theta_bound (f ph : ℝ) (hf : f ≠ 0) (s : Sho)
    (hs : Reached f ph s) :
    |s.theta| ≤ 2 * Real.pi ∧
    ∃ s₂ : Sho, Reached f ph s₂ ∧ s₂.theta < 0 := by
  have hp : 0 < s.period := hs.period_pos hf
  have hws : 0 < s.wave_speed := by
    rw [hs.wave_speed_eq]
    have : 0 < |f| := abs_pos.mpr hf
    positivity
  constructor
  · have hb := hs.t_bound hf
    have h1 : |s.t| ≤ s.period := abs_le.mpr hb
    unfold Sho.theta
    rw [abs_mul, abs_of_nonneg (le_of_lt hws)]
    calc |s.t| * s.wave_speed ≤ s.period * s.wave_speed :=
          mul_le_mul_of_nonneg_right h1 (le_of_lt hws)
      _ = 2 * Real.pi := hs.period_mul_wave_speed hf
  · refine ⟨s.advance (-s.t - s.period / 2), Reached.step s _ hs, ?_⟩
    have hadv : (s.advance (-s.t - s.period / 2)).t = -(s.period / 2) := by
      show wrapT (s.t + (-s.t - s.period / 2)) s.period = -(s.period / 2)
      have harg : s.t + (-s.t - s.period / 2) = -(s.period / 2) := by ring
      rw [harg]
      exact wrapT_eq_self (by push_neg; constructor <;> linarith)
    show (s.advance (-s.t - s.period / 2)).t *
        (s.advance (-s.t - s.period / 2)).wave_speed < 0
    rw [hadv, Sho.advance_wave_speed]
    exact mul_neg_of_neg_of_pos (by linarith) hws

theorem C10_witness :
    (1 : ℝ) / 16 ≠ 0 ∧ |(Sho.init (1 / 16) 0).theta| ≤ 2 * Real.pi :=
  ⟨by norm_num,
   (C10_theta_bound (1 / 16) 0 (by norm_num) _ Reached.base).1⟩
